import Mathlib

/-!
# Verification of the minitorch buffer/autograd core

Shallow embedding of `src/minitorch/buffer.py` (class `MiniBuffer`) and of the
autograd engine in `src/minitorch/tensor.py` (`Tensor.toposort`,
`Tensor.backward`, `Tensor._broadcasted`, `Tensor.expand`).

Modelling conventions:
* Python `float` values are modelled as `ℤ`: every operation on a path the
  claims exercise (addition, subtraction, multiplication, max, summation) is
  exact on integers, and every concrete input of the claims is integral, so
  the float arithmetic of those paths coincides with `ℤ` arithmetic.
* Python list indexing `data[pos]` is modelled as `List.getD data pos 0`;
  every execution path the theorems talk about stays in bounds, where it does
  not (the `is_equal_to` traversal) the abnormal path is modelled explicitly.
* Python `assert` failures and attribute errors are modelled with
  `Except String` / `Option` results.
-/

namespace Minitorch

/-- `MiniBuffer` from `buffer.py`: flat data plus shape and strides. -/
structure MiniBuffer where
  data : List ℤ
  shape : List ℕ
  strides : List ℕ
  deriving Repr, DecidableEq

namespace MiniBuffer

/-- `MiniBuffer.BinaryOp`.  `DIV` and `POW` are omitted: their float
semantics has no exact integer counterpart and no claim exercises them. -/
inductive BinaryOp where
  | ADD | SUB | MUL | MAX
  deriving Repr, DecidableEq

/-- `MiniBuffer._apply_op_binary` (on the embedded ops). -/
def applyBin : BinaryOp → ℤ → ℤ → ℤ
  | .ADD, x, y => x + y
  | .SUB, x, y => x - y
  | .MUL, x, y => x * y
  | .MAX, x, y => max x y

/-- `MiniBuffer.get_strides_from_shape`: stride of each axis is the product
of all later dimension sizes; the last axis has stride 1. -/
def get_strides_from_shape (shape : List ℕ) : List ℕ :=
  (List.range shape.length).map (fun i =>
    if i = shape.length - 1 then 1 else ((shape.drop (i + 1)).prod))

/-- `MiniBuffer.__init__` with `strides=None`. -/
def ofDataShape (data : List ℤ) (shape : List ℕ) : MiniBuffer :=
  ⟨data, shape, get_strides_from_shape shape⟩

/-- `MiniBuffer.fill`. -/
def fill (shape : List ℕ) (value : ℤ) : MiniBuffer :=
  ofDataShape (List.replicate shape.prod value) shape

/-- `MiniBuffer.full_like`. -/
def full_like (input : MiniBuffer) (value : ℤ) : MiniBuffer :=
  fill input.shape value

/-- `MiniBuffer._traverse_dims_and_apply_op` for a binary op: walk all axes
using each operand's own strides; at the last axis apply the op pairwise.
The recursion of the source is on `depth_idx`, bounded because the last-axis
test fires at `depth_idx = len(shape) - 1`; here the bound is made structural
through `rem`, the number of axes not yet entered, which the wrapper
`traverseBin` initializes to `x.shape.length - depth` (the `rem = 0` case is
unreachable from the wrapper for non-empty shapes; for empty shapes both the
source, read with total indexing, and this model produce `[]`). -/
def traverseBinAux (op : BinaryOp) (x y : MiniBuffer) :
    ℕ → ℕ → ℕ → ℕ → List ℤ
  | 0, _, _, _ => []
  | rem + 1, depth, px, py =>
    if depth = x.shape.length - 1 then
      (List.range (x.shape.getD depth 0)).map (fun i =>
        applyBin op (x.data.getD (px + i * x.strides.getD depth 0) 0)
                    (y.data.getD (py + i * y.strides.getD depth 0) 0))
    else
      (List.range (x.shape.getD depth 0)).flatMap (fun i =>
        traverseBinAux op x y rem (depth + 1) (px + i * x.strides.getD depth 0)
          (py + i * y.strides.getD depth 0))

/-- `MiniBuffer._traverse_dims_and_apply_op` entered at `depth` (the source
calls it with `depth_idx = 0`). -/
def traverseBin (op : BinaryOp) (x y : MiniBuffer) (depth px py : ℕ) : List ℤ :=
  traverseBinAux op x y (x.shape.length - depth) depth px py

/-- `MiniBuffer.add`: result is a new buffer with the left operand's shape and
default (contiguous) strides. -/
def add (x y : MiniBuffer) : MiniBuffer :=
  ofDataShape (traverseBin .ADD x y 0 0 0) x.shape

/-- The "hack to make a contiguous MiniBuffer again": `result +
full_like(result, 0)`, appended to `permute`, `expand` and `sum`. -/
def materialize (b : MiniBuffer) : MiniBuffer :=
  add b (full_like b 0)

/-- `MiniBuffer.permute`: reorder shape and strides positionally, then
re-materialize. -/
def permute (x : MiniBuffer) (order : List ℕ) : MiniBuffer :=
  materialize ⟨x.data, order.map (fun o => x.shape.getD o 0),
    order.map (fun o => x.strides.getD o 0)⟩

/-- `MiniBuffer.reshape`: same flat data, new shape, default strides. -/
def reshape (x : MiniBuffer) (new_shape : List ℕ) : MiniBuffer :=
  ⟨x.data, new_shape, get_strides_from_shape new_shape⟩

/-- The stride rewrite inside `MiniBuffer.expand`: keep the input strides but
set the stride at the expansion axis to the product of all other (corrected)
dimension sizes. -/
def expandStrides (shape strides : List ℕ) (axis : ℕ) : List ℕ :=
  strides.set axis
    (((List.range shape.length).map (fun i => if i = axis then 1 else shape.getD i 0)).prod)

/-- The buffer `MiniBuffer.expand` builds before re-materializing: the flat
data repeated `expanded_size` times, the axis size rewritten, and the stride
rewrite of `expandStrides`. -/
def expandRaw (x : MiniBuffer) (axis expanded_size : ℕ) : MiniBuffer :=
  ⟨(List.replicate expanded_size x.data).flatten,
    x.shape.set axis expanded_size,
    expandStrides x.shape x.strides axis⟩

/-- `MiniBuffer.expand`. -/
def expand (x : MiniBuffer) (axis expanded_size : ℕ) : MiniBuffer :=
  materialize (expandRaw x axis expanded_size)

/-- `MiniBuffer._traverse_dims_and_sum_along_last`: at the last axis sum the
run (a left fold starting from 0.0, modelled by `List.sum`).
Recursion made structural through `rem` exactly as in `traverseBinAux`. -/
def traverseSumAux (x : MiniBuffer) : ℕ → ℕ → ℕ → List ℤ
  | 0, _, _ => []
  | rem + 1, depth, pos =>
    if depth = x.shape.length - 1 then
      [((List.range (x.shape.getD depth 0)).map (fun i =>
          x.data.getD (pos + i * x.strides.getD depth 0) 0)).sum]
    else
      (List.range (x.shape.getD depth 0)).flatMap (fun i =>
        traverseSumAux x rem (depth + 1) (pos + i * x.strides.getD depth 0))

/-- `MiniBuffer._traverse_dims_and_sum_along_last` entered at `depth`. -/
def traverseSum (x : MiniBuffer) (depth pos : ℕ) : List ℤ :=
  traverseSumAux x (x.shape.length - depth) depth pos

/-- The simultaneous swap `l[axis], l[-1] = l[-1], l[axis]` used by
`MiniBuffer.sum` on `dim_order` and `out_shape`. -/
def swapLast (l : List ℕ) (axis : ℕ) : List ℕ :=
  (l.set axis (l.getD (l.length - 1) 0)).set (l.length - 1) (l.getD axis 0)

/-- `MiniBuffer.sum axis`: permute the target axis to the last position, sum
contiguous runs along the last axis, permute back, re-materialize. -/
def sum (x : MiniBuffer) (axis : ℕ) : MiniBuffer :=
  let out_shape := (List.range x.shape.length).map
    (fun i => if i = axis then 1 else x.shape.getD i 0)
  let dim_order := swapLast (List.range x.shape.length) axis
  let out_shape1 := swapLast out_shape axis
  let xp := x.permute dim_order
  let xs := ofDataShape (traverseSum xp 0 0) out_shape1
  -- (the code swaps `out_shape` back here, but the buffer is already built)
  materialize (xs.permute dim_order)

/-- `MiniBuffer.is_scalar`: note this tests the *rank*, not the element
count. -/
def is_scalar (x : MiniBuffer) : Bool :=
  x.shape.length = 1

/-- `MiniBuffer._compare`: scan one (the last) axis, `False` on the first
mismatching pair, `True` otherwise. -/
def compareLast (depth : ℕ) (pos : ℕ × ℕ) (x target : MiniBuffer) : Bool :=
  (List.range (x.shape.getD depth 0)).all (fun i =>
    decide (x.data.getD (pos.1 + i * x.strides.getD depth 0) 0 =
            target.data.getD (pos.2 + i * target.strides.getD depth 0) 0))

/-- `MiniBuffer._traverse_dims_and_compare`.  On the last axis it delegates
to `_compare`.  On any earlier axis the Python source computes
`current_position + dim_idx * x.strides[depth_idx]` where `current_position`
is the *tuple* `(x_pos, target_pos)`: adding an `int` to a `tuple` raises
`TypeError` before any element is compared (and even absent that, the loop
`return`s on its first iteration; an empty leading dimension falls through
and returns Python `None`, which is not a `bool`).  All those abnormal paths
are modelled as `none`. -/
def traverseCompare (depth : ℕ) (pos : ℕ × ℕ) (x target : MiniBuffer) : Option Bool :=
  if depth = x.shape.length - 1 then
    some (compareLast depth pos x target)
  else
    none

/-- `MiniBuffer.is_equal_to`. -/
def is_equal_to (x target : MiniBuffer) : Option Bool :=
  traverseCompare 0 (0, 0) x target

/-- `MiniBuffer.__getitem__`: flat position is the stride-weighted sum of the
keys, with no per-axis bounds check. -/
def getItem (x : MiniBuffer) (keys : List ℕ) : ℤ :=
  x.data.getD ((List.zipWith (fun k s => s * k) keys x.strides).sum) 0

end MiniBuffer

end Minitorch

namespace Minitorch

open MiniBuffer

/-! ## List helper lemmas -/

lemma getD_replicate_eq (n i : ℕ) (x d : ℤ) :
    (List.replicate n x).getD i d = if i < n then x else d := by
  simp only [List.getD, List.get?_eq_getElem?, List.getElem?_replicate]
  split <;> rfl

lemma getD_replicate_zero (n i : ℕ) : (List.replicate n (0 : ℤ)).getD i 0 = 0 := by
  rw [getD_replicate_eq]; split <;> rfl

lemma map_getD_range {α : Type} (l : List α) (d : α) :
    (List.range l.length).map (fun i => l.getD i d) = l := by
  apply List.ext_getElem
  · simp
  · intro i h1 h2
    simp only [List.getElem_map, List.getElem_range]
    exact List.getD_eq_getElem l d h2

lemma flatMap_range_mul {α : Type} (P : ℕ) (f : ℕ → α) :
    ∀ (k : ℕ),
      (List.range k).flatMap (fun i => (List.range P).map (fun j => f (i * P + j))) =
        (List.range (k * P)).map f
  | 0 => by simp
  | k + 1 => by
    rw [List.range_succ, List.flatMap_append, flatMap_range_mul P f k]
    have h : (k + 1) * P = k * P + P := by ring
    rw [h, List.range_add, List.map_append]
    simp [List.map_map, Function.comp]

namespace MiniBuffer

lemma length_get_strides (s : List ℕ) : (get_strides_from_shape s).length = s.length := by
  simp [get_strides_from_shape]

lemma getD_strides (s : List ℕ) (d : ℕ) (hd : d < s.length) :
    (get_strides_from_shape s).getD d 0 =
      if d = s.length - 1 then 1 else ((s.drop (d + 1)).prod) := by
  unfold get_strides_from_shape
  rw [List.getD_eq_getElem _ _ (by simpa using hd)]
  simp

/-! ## Claim C9: `permute` with the identity order -/

/-- Flattening a contiguous buffer: the add-zero traversal of a buffer whose
strides are the row-major strides of its shape reads the data back in flat
order (`y` is any all-zero operand, as produced by `full_like _ 0`). -/
lemma traverseBinAux_contiguous (x y : MiniBuffer)
    (hstr : x.strides = get_strides_from_shape x.shape)
    (hy : ∀ i, y.data.getD i 0 = 0) :
    ∀ (r d px py : ℕ), x.shape.length = d + r → 1 ≤ r →
      traverseBinAux .ADD x y r d px py =
        (List.range ((x.shape.drop d).prod)).map (fun i => x.data.getD (px + i) 0)
  | 0, d, px, py, hlen, hr => absurd hr (by omega)
  | 1, d, px, py, hlen, _ => by
    have hd : d < x.shape.length := by omega
    have hcond : d = x.shape.length - 1 := by omega
    rw [traverseBinAux, if_pos hcond]
    have hstride1 : x.strides.getD d 0 = 1 := by
      rw [hstr, getD_strides _ _ hd, if_pos hcond]
    have hnil : x.shape.drop (d + 1) = [] := List.drop_eq_nil_of_le (by omega)
    have hdrop : (x.shape.drop d).prod = x.shape.getD d 0 := by
      rw [List.drop_eq_getElem_cons hd, hnil, List.prod_singleton,
        List.getD_eq_getElem _ _ hd]
    rw [hdrop]
    apply List.map_congr_left
    intro i _
    rw [hstride1, mul_one, hy]
    simp [applyBin]
  | r + 2, d, px, py, hlen, _ => by
    have hd : d < x.shape.length := by omega
    have hcond : ¬ d = x.shape.length - 1 := by omega
    rw [traverseBinAux, if_neg hcond]
    have hstrideP : x.strides.getD d 0 = (x.shape.drop (d + 1)).prod := by
      rw [hstr, getD_strides _ _ hd, if_neg hcond]
    have hchunk : ∀ i ∈ List.range (x.shape.getD d 0),
        traverseBinAux .ADD x y (r + 1) (d + 1) (px + i * x.strides.getD d 0)
            (py + i * y.strides.getD d 0) =
          (List.range ((x.shape.drop (d + 1)).prod)).map
            (fun j => x.data.getD (px + (i * (x.shape.drop (d + 1)).prod + j)) 0) := by
      intro i _
      rw [traverseBinAux_contiguous x y hstr hy (r + 1) (d + 1) _ _ (by omega) (by omega)]
      apply List.map_congr_left
      intro j _
      rw [hstrideP]
      ring_nf
    rw [List.flatMap_congr hchunk,
      flatMap_range_mul ((x.shape.drop (d + 1)).prod) (fun t => x.data.getD (px + t) 0)]
    have hdrop : (x.shape.drop d).prod = x.shape.getD d 0 * (x.shape.drop (d + 1)).prod := by
      rw [List.drop_eq_getElem_cons hd, List.prod_cons, List.getD_eq_getElem _ _ hd]
    rw [hdrop]

/-- C9: permuting any buffer (of positive rank, with row-major strides and a
full data vector) by the identity order and re-materializing returns a buffer
*equal* to the input — same shape, same strides, and elementwise-equal (in
fact identical) data. -/
theorem permute_identity_eq (b : MiniBuffer)
    (hrank : 1 ≤ b.shape.length)
    (hstr : b.strides = get_strides_from_shape b.shape)
    (hdata : b.data.length = b.shape.prod) :
    b.permute (List.range b.shape.length) = b := by
  have hlenstr : b.strides.length = b.shape.length := by
    rw [hstr]; exact length_get_strides b.shape
  have hdims : (List.range b.shape.length).map (fun o => b.shape.getD o 0) = b.shape :=
    map_getD_range b.shape 0
  have hstrides : (List.range b.shape.length).map (fun o => b.strides.getD o 0) = b.strides := by
    rw [← hlenstr]; exact map_getD_range b.strides 0
  show materialize ⟨b.data, _, _⟩ = b
  rw [hdims, hstrides]
  show add b (full_like b 0) = b
  unfold add traverseBin
  have hgather := traverseBinAux_contiguous b (full_like b 0) hstr
    (fun i => getD_replicate_zero _ _) b.shape.length 0 0 0 (by omega) hrank
  simp only [Nat.sub_zero]
  rw [hgather]
  have : (List.range ((b.shape.drop 0).prod)).map (fun i => b.data.getD (0 + i) 0) = b.data := by
    simp only [List.drop_zero, Nat.zero_add, ← hdata]
    exact map_getD_range b.data 0
  rw [this]
  unfold ofDataShape
  rw [← hstr]

/-- C9 witness: the theorem instantiated at the contiguous `(2,3)` buffer
`[1,2,3,4,5,6]`. -/
theorem permute_identity_witness :
    (ofDataShape [1, 2, 3, 4, 5, 6] [2, 3]).permute
        (List.range (ofDataShape [1, 2, 3, 4, 5, 6] [2, 3]).shape.length) =
      ofDataShape [1, 2, 3, 4, 5, 6] [2, 3] :=
  permute_identity_eq _ (by decide) (by decide) (by decide)

/-! ## Rank-2 evaluation lemmas -/

lemma map_range_const {α : Type} (b : ℕ) (c : α) :
    (List.range b).map (fun _ => c) = List.replicate b c := by
  induction b with
  | zero => rfl
  | succ k ih => rw [List.range_succ, List.map_append, ih]; simp [List.replicate_succ']

lemma flatMap_range_const {α : Type} (a b : ℕ) (c : α) :
    (List.range a).flatMap (fun _ => List.replicate b c) = List.replicate (a * b) c := by
  induction a with
  | zero => simp
  | succ k ih =>
    rw [List.range_succ, List.flatMap_append, ih]
    have h : (k + 1) * b = k * b + b := by ring
    rw [h, List.replicate_add]
    simp

lemma pos_bound {i j n m : ℕ} (hi : i < n) (hj : j < m) : i + j * n < m * n := by
  have h1 : i + j * n < (j + 1) * n := by rw [Nat.succ_mul]; omega
  have h2 : (j + 1) * n ≤ m * n := Nat.mul_le_mul_right n (Nat.succ_le_of_lt hj)
  omega

lemma get_strides_pair (a b : ℕ) : get_strides_from_shape [a, b] = [b, 1] := by
  have hr : List.range ([a, b] : List ℕ).length = [0, 1] := rfl
  unfold get_strides_from_shape
  rw [hr]
  simp only [List.map_cons, List.map_nil, List.length_cons, List.length_nil,
    List.drop_succ_cons, List.drop_zero, List.prod_cons, List.prod_nil]
  norm_num

/-- `traverseBin` on a rank-2 left operand, unfolded to the double loop of the
source. -/
lemma traverseBin_two (op : BinaryOp) (xd : List ℤ) (a b xs0 xs1 : ℕ)
    (Y : MiniBuffer) (px py : ℕ) :
    traverseBin op ⟨xd, [a, b], [xs0, xs1]⟩ Y 0 px py =
      (List.range a).flatMap (fun i => (List.range b).map (fun j =>
        applyBin op (xd.getD (px + i * xs0 + j * xs1) 0)
          (Y.data.getD (py + i * Y.strides.getD 0 0 + j * Y.strides.getD 1 0) 0))) := rfl

/-- `traverseSum` on a rank-2 buffer, unfolded to the double loop of the
source. -/
lemma traverseSum_two (xd : List ℤ) (a b s0 s1 : ℕ) (pos : ℕ) :
    traverseSum ⟨xd, [a, b], [s0, s1]⟩ 0 pos =
      (List.range a).flatMap (fun i =>
        [((List.range b).map (fun j => xd.getD (pos + i * s0 + j * s1) 0)).sum]) := rfl

/-- Re-materializing a rank-2 buffer gathers its logical elements in row-major
order into a contiguous buffer. -/
lemma materialize_two (dd : List ℤ) (a b s0 s1 : ℕ) :
    materialize ⟨dd, [a, b], [s0, s1]⟩ =
      ⟨(List.range a).flatMap (fun i => (List.range b).map (fun j =>
          dd.getD (i * s0 + j * s1) 0)), [a, b], [b, 1]⟩ := by
  unfold materialize add ofDataShape
  rw [get_strides_pair, traverseBin_two]
  congr 1
  apply List.flatMap_congr
  intro i _
  apply List.map_congr_left
  intro j _
  simp [applyBin, full_like, fill, ofDataShape, getD_replicate_zero]

/-! ## Claim C7: `sum` along axis 0 of an all-ones `(m, n)` buffer -/

/-- C7: `sum` (which permutes the target axis last, sums contiguous runs,
permutes back and re-materializes) maps the all-ones `(m, n)` buffer, summed
along axis 0, to the contiguous `(1, n)` buffer every element of which is
`m`. -/
theorem sum_axis0_all_ones (m n : ℕ) :
    MiniBuffer.sum (fill [m, n] 1) 0 =
      ⟨List.replicate n (m : ℤ), [1, n], [n, 1]⟩ := by
  have hfill : fill [m, n] (1 : ℤ) = ⟨List.replicate (m * n) 1, [m, n], [n, 1]⟩ := by
    unfold fill ofDataShape
    rw [get_strides_pair]
    norm_num
  -- `x.permute(dim_order)` with the all-ones input
  have hperm1 : (⟨List.replicate (m * n) 1, [m, n], [n, 1]⟩ : MiniBuffer).permute [1, 0] =
      ⟨List.replicate (n * m) 1, [n, m], [m, 1]⟩ := by
    show materialize ⟨List.replicate (m * n) 1, [n, m], [1, n]⟩ = _
    rw [materialize_two]
    congr 1
    have hcongr : ∀ i ∈ List.range n, (List.range m).map (fun j =>
        (List.replicate (m * n) (1 : ℤ)).getD (i * 1 + j * n) 0) = List.replicate m 1 := by
      intro i hi
      have hi' := List.mem_range.mp hi
      rw [show (fun j => (List.replicate (m * n) (1 : ℤ)).getD (i * 1 + j * n) 0) =
            (fun j => (List.replicate (m * n) (1 : ℤ)).getD (i + j * n) 0) by
          funext j; rw [mul_one]]
      have : ∀ j ∈ List.range m, (List.replicate (m * n) (1 : ℤ)).getD (i + j * n) 0 = 1 := by
        intro j hj
        have hj' := List.mem_range.mp hj
        rw [getD_replicate_eq, if_pos (pos_bound hi' hj')]
      rw [List.map_congr_left this, map_range_const]
    rw [List.flatMap_congr hcongr, flatMap_range_const]
  -- the inner sum along the (now last) axis
  have hsum : traverseSum ⟨List.replicate (n * m) 1, [n, m], [m, 1]⟩ 0 0 =
      List.replicate n (m : ℤ) := by
    rw [traverseSum_two]
    have hcongr : ∀ i ∈ List.range n, [((List.range m).map (fun j =>
        (List.replicate (n * m) (1 : ℤ)).getD (0 + i * m + j * 1) 0)).sum] =
        List.replicate 1 (m : ℤ) := by
      intro i hi
      have hi' := List.mem_range.mp hi
      have helt : ∀ j ∈ List.range m, (List.replicate (n * m) (1 : ℤ)).getD (0 + i * m + j * 1) 0 = 1 := by
        intro j hj
        have hj' := List.mem_range.mp hj
        have hb : j + i * m < n * m := pos_bound hj' hi'
        rw [getD_replicate_eq, if_pos (by omega)]
      rw [List.map_congr_left helt, map_range_const]
      simp [List.sum_replicate]
    rw [List.flatMap_congr hcongr, flatMap_range_const]
    simp
  -- permuting the `(n, 1)` result of the sum back to `(1, n)`
  have hperm2 : (⟨List.replicate n (m : ℤ), [n, 1], [1, 1]⟩ : MiniBuffer).permute [1, 0] =
      ⟨List.replicate n (m : ℤ), [1, n], [n, 1]⟩ := by
    show materialize ⟨List.replicate n (m : ℤ), [1, n], [1, 1]⟩ = _
    rw [materialize_two]
    congr 1
    have hcongr : ∀ i ∈ List.range 1, (List.range n).map (fun j =>
        (List.replicate n (m : ℤ)).getD (i * 1 + j * 1) 0) = List.replicate n (m : ℤ) := by
      intro i hi
      have hi' := List.mem_range.mp hi
      have hi0 : i = 0 := by omega
      subst hi0
      have : ∀ j ∈ List.range n, (List.replicate n (m : ℤ)).getD (0 * 1 + j * 1) 0 = (m : ℤ) := by
        intro j hj
        have hj' := List.mem_range.mp hj
        rw [getD_replicate_eq, if_pos (by omega)]
      rw [List.map_congr_left this, map_range_const]
    rw [List.flatMap_congr hcongr, flatMap_range_const]
    simp
  -- the final add-zero on the already-contiguous `(1, n)` result
  have hmat : materialize ⟨List.replicate n (m : ℤ), [1, n], [n, 1]⟩ =
      ⟨List.replicate n (m : ℤ), [1, n], [n, 1]⟩ := by
    rw [materialize_two]
    congr 1
    have hcongr : ∀ i ∈ List.range 1, (List.range n).map (fun j =>
        (List.replicate n (m : ℤ)).getD (i * n + j * 1) 0) = List.replicate n (m : ℤ) := by
      intro i hi
      have hi' := List.mem_range.mp hi
      have hi0 : i = 0 := by omega
      subst hi0
      have : ∀ j ∈ List.range n, (List.replicate n (m : ℤ)).getD (0 * n + j * 1) 0 = (m : ℤ) := by
        intro j hj
        have hj' := List.mem_range.mp hj
        rw [getD_replicate_eq, if_pos (by omega)]
      rw [List.map_congr_left this, map_range_const]
    rw [List.flatMap_congr hcongr, flatMap_range_const]
    simp
  -- assemble the pipeline of `MiniBuffer.sum`
  simp only [MiniBuffer.sum]
  rw [hfill]
  have hrange : List.range (([m, n] : List ℕ).length) = [0, 1] := rfl
  have hswap : swapLast [0, 1] 0 = [1, 0] := rfl
  have hshape2 : (⟨List.replicate (m * n) 1, [m, n], [n, 1]⟩ : MiniBuffer).shape = [m, n] := rfl
  rw [hshape2, hrange, hswap, hperm1]
  have hout : ([0, 1] : List ℕ).map
      (fun i => if i = 0 then 1 else List.getD [m, n] i 0) = [1, n] := by norm_num
  have hout1 : swapLast [1, n] 0 = [n, 1] := rfl
  rw [hsum]
  have hods : ofDataShape (List.replicate n (m : ℤ)) (swapLast (([0,1] : List ℕ).map
      (fun i => if i = 0 then 1 else (⟨List.replicate (m * n) 1, [m, n], [n, 1]⟩ : MiniBuffer).shape.getD i 0)) 0) =
      ⟨List.replicate n (m : ℤ), [n, 1], [1, 1]⟩ := by
    rw [hshape2]
    show ofDataShape (List.replicate n (m : ℤ)) [n, 1] = _
    unfold ofDataShape
    rw [get_strides_pair]
  rw [hods, hperm2, hmat]

/-- C7 witness: the theorem instantiated at `m = 2`, `n = 3`. -/
theorem sum_axis0_all_ones_witness :
    MiniBuffer.sum (fill [2, 3] 1) 0 = ⟨List.replicate 3 ((2 : ℕ) : ℤ), [1, 3], [3, 1]⟩ :=
  sum_axis0_all_ones 2 3

end MiniBuffer

/-! ## Claim C5: `is_equal_to` -/

/-- C5 (code_bug evidence): `is_equal_to` was specified to compare all
corresponding elements of two identically-shaped buffers of any rank up to 4,
but the traversal in `_traverse_dims_and_compare` adds the position *tuple*
to an integer on every non-last axis, so any rank-2 (or higher) comparison
aborts with a `TypeError` before comparing anything — even comparing a
buffer with itself.  Only the rank-1 case behaves as specified. -/
theorem is_equal_to_crashes_on_rank2 :
    MiniBuffer.is_equal_to (ofDataShape [1, 2, 3, 4] [2, 2]) (ofDataShape [1, 2, 3, 4] [2, 2]) = none ∧
    MiniBuffer.is_equal_to (ofDataShape [1, 2] [2]) (ofDataShape [1, 2] [2]) = some true ∧
    MiniBuffer.is_equal_to (ofDataShape [1, 2] [2]) (ofDataShape [1, 3] [2]) = some false := by
  refine ⟨?_, ?_, ?_⟩ <;> decide

/-! ## Claim C6: `expand` -/

/-- C6: `expand` repeats the flat data sequence `expanded_size` times, rewrites
the stride at the expanded axis to the product of all other (corrected)
dimension sizes, and re-materializes; expanding shape `(1,3)` to `(2,3)` and
shape `(3,1)` (same flat data `[1,2,3]`) to `(3,2)` yield different flat
layouts (`[1,2,3,1,2,3]` vs `[1,1,2,2,3,3]`) even though element counts
match. -/
theorem expand_distinguishes_shape_origin :
    (∀ (x : MiniBuffer) (axis n : ℕ),
        (expandRaw x axis n).data = (List.replicate n x.data).flatten ∧
        (expandRaw x axis n).strides = expandStrides x.shape x.strides axis ∧
        MiniBuffer.expand x axis n = materialize (expandRaw x axis n)) ∧
    expandStrides [1, 3] [3, 1] 0 = [3, 1] ∧
    expandStrides [3, 1] [1, 1] 1 = [1, 3] ∧
    (MiniBuffer.expand (ofDataShape [1, 2, 3] [1, 3]) 0 2).shape = [2, 3] ∧
    (MiniBuffer.expand (ofDataShape [1, 2, 3] [1, 3]) 0 2).data = [1, 2, 3, 1, 2, 3] ∧
    (MiniBuffer.expand (ofDataShape [1, 2, 3] [3, 1]) 1 2).shape = [3, 2] ∧
    (MiniBuffer.expand (ofDataShape [1, 2, 3] [3, 1]) 1 2).data = [1, 1, 2, 2, 3, 3] ∧
    ([1, 2, 3, 1, 2, 3] : List ℤ) ≠ [1, 1, 2, 2, 3, 3] := by
  refine ⟨fun x axis n => ⟨rfl, rfl, rfl⟩, ?_, ?_, ?_, ?_, ?_, ?_, ?_⟩ <;> decide

/-! ## Claim C10: `__getitem__` has no per-axis bounds check -/

/-- C10: `__getitem__` computes the flat position as the stride-weighted sum
of the keys with no per-axis bounds check: on the contiguous `(2,3)` buffer
`[10,20,30,40,50,60]`, the key `(0,4)` — whose second component `4` exceeds
the axis size `3` while the flat offset `4` is still inside the data —
returns `50`, the element at the different logical position `(1,1)`, instead
of failing. -/
theorem getitem_no_bounds_check :
    (4 ≥ (ofDataShape [10, 20, 30, 40, 50, 60] [2, 3]).shape.getD 1 0) ∧
    getItem (ofDataShape [10, 20, 30, 40, 50, 60] [2, 3]) [0, 4] = 50 ∧
    getItem (ofDataShape [10, 20, 30, 40, 50, 60] [2, 3]) [1, 1] = 50 := by
  refine ⟨?_, ?_, ?_⟩ <;> decide

end Minitorch

namespace Minitorch

namespace MiniBuffer

/-! ## Claim C8: `Tensor._broadcasted` -/

/-- Modelled from the spec: `ops.py` is not under `src/`.  Per §4.2 every
differentiable Tensor method runs an Operation's `forward` on the underlying
buffers; per §4.1 `reshape` "only reinterprets shape over the same flat
data", i.e. `Reshape.forward` is `MiniBuffer.reshape`.  `Tensor.reshape` and
`Tensor.pad_shapes` thus reduce to it for the shape bookkeeping
`_broadcasted` needs (gradient bookkeeping does not affect shapes and is
modelled separately for the autograd claims). -/
def tReshape (x : MiniBuffer) (ns : List ℕ) : MiniBuffer := x.reshape ns

/-- Modelled from the spec: `ops.py` `Expand`'s forward step replicates along
one size-1 axis (§4.1), i.e. it is `MiniBuffer.expand axis expanded_size`. -/
def tExpandStep (x : MiniBuffer) (axis n : ℕ) : MiniBuffer := x.expand axis n

/-- The rank-padding prologue of `Tensor.expand` (via `Tensor.pad_shapes`). -/
def tensorExpandPad (x : MiniBuffer) (ns : List ℕ) : MiniBuffer :=
  if x.shape.length < ns.length then
    tReshape x (List.replicate (ns.length - x.shape.length) 1 ++ x.shape)
  else x

/-- `Tensor.expand new_shape`: left-pad the shape with 1s if the rank grew,
then walk the axes and expand every axis whose size differs from the target
(the source asserts such an axis has size 1). -/
def tensorExpand (x : MiniBuffer) (ns : List ℕ) : MiniBuffer :=
  (List.range (tensorExpandPad x ns).shape.length).foldl
    (fun b i => if b.shape.getD i 0 ≠ ns.getD i 0 then tExpandStep b i (ns.getD i 0) else b)
    (tensorExpandPad x ns)

/-- The rank-equalizing step of `Tensor._broadcasted`: left-pad the shape of
the lower-rank operand with size-1 axes (via `Tensor.reshape`). -/
def padRanks (x y : MiniBuffer) : MiniBuffer × MiniBuffer :=
  (if x.shape.length < y.shape.length then
      tReshape x (List.replicate (y.shape.length - x.shape.length) 1 ++ x.shape)
    else x,
   if y.shape.length < x.shape.length then
      tReshape y (List.replicate (x.shape.length - y.shape.length) 1 ++ y.shape)
    else y)

/-- The equal-rank tail of `Tensor._broadcasted`: recheck shape equality,
compute `shape_ret[i] = max(S1[i], S2[i])` and expand whichever operand
differs from it. -/
def broadcastedCore (x y : MiniBuffer) : MiniBuffer × MiniBuffer :=
  if x.shape = y.shape then (x, y)
  else
    let shape_ret := List.zipWith max x.shape y.shape
    (if x.shape ≠ shape_ret then tensorExpand x shape_ret else x,
     if y.shape ≠ shape_ret then tensorExpand y shape_ret else y)

/-- `Tensor._broadcasted`. -/
def broadcasted (x y : MiniBuffer) : MiniBuffer × MiniBuffer :=
  if x.shape = y.shape then (x, y)
  else broadcastedCore (padRanks x y).1 (padRanks x y).2

/-- A shape left-padded with size-1 axes up to rank `k`. -/
def padShapeTo (s : List ℕ) (k : ℕ) : List ℕ :=
  List.replicate (k - s.length) 1 ++ s

lemma padShapeTo_length (s : List ℕ) (k : ℕ) :
    (padShapeTo s k).length = max k s.length := by
  simp [padShapeTo]
  omega

lemma padShapeTo_of_le (s : List ℕ) (k : ℕ) (h : k ≤ s.length) :
    padShapeTo s k = s := by
  unfold padShapeTo
  rw [Nat.sub_eq_zero_of_le h]
  rfl

lemma zipWith_max_self (s : List ℕ) : List.zipWith max s s = s := by
  induction s with
  | nil => rfl
  | cons a t ih => simp [ih]

lemma expand_shape (b : MiniBuffer) (i n : ℕ) : (b.expand i n).shape = b.shape.set i n := rfl

lemma tExpandStep_shape (b : MiniBuffer) (i n : ℕ) :
    (tExpandStep b i n).shape = b.shape.set i n := rfl

lemma getD_append_cons {α : Type} (l1 : List α) (a : α) (l2 : List α) (n : ℕ)
    (h : n = l1.length) (d : α) : (l1 ++ a :: l2).getD n d = a := by
  subst h
  induction l1 with
  | nil => rfl
  | cons b t ih => simpa using ih

lemma foldl_expand_shape (ns : List ℕ) :
    ∀ (k : ℕ) (b : MiniBuffer), b.shape.length = ns.length → k ≤ ns.length →
      (((List.range k).foldl
        (fun b i => if b.shape.getD i 0 ≠ ns.getD i 0 then tExpandStep b i (ns.getD i 0) else b)
        b)).shape = ns.take k ++ b.shape.drop k
  | 0, b, _, _ => by simp
  | k + 1, b, hlen, hk => by
    rw [List.range_succ, List.foldl_append, List.foldl_cons, List.foldl_nil]
    have hk' : k ≤ ns.length := by omega
    have hprev := foldl_expand_shape ns k b hlen hk'
    have hkb : k < b.shape.length := by omega
    have hkn : k < ns.length := by omega
    have htake : (ns.take k).length = k := List.length_take_of_le (by omega)
    have hdropk : b.shape.drop k = b.shape[k] :: b.shape.drop (k + 1) :=
      List.drop_eq_getElem_cons hkb
    have htakes : ns.take (k + 1) = ns.take k ++ [ns[k]] := by
      rw [List.take_succ, List.getElem?_eq_getElem hkn]
      rfl
    have hgoal : List.take k ns ++ ns[k] :: List.drop (k + 1) b.shape =
        List.take (k + 1) ns ++ List.drop (k + 1) b.shape := by
      rw [htakes, List.append_assoc]
      rfl
    have hgetprev : ((List.range k).foldl
        (fun b i => if b.shape.getD i 0 ≠ ns.getD i 0 then tExpandStep b i (ns.getD i 0) else b)
        b).shape.getD k 0 = b.shape[k] := by
      rw [hprev, hdropk]
      exact getD_append_cons _ _ _ _ htake.symm _
    by_cases hne : ((List.range k).foldl
        (fun b i => if b.shape.getD i 0 ≠ ns.getD i 0 then tExpandStep b i (ns.getD i 0) else b)
        b).shape.getD k 0 ≠ ns.getD k 0
    · rw [if_pos hne, tExpandStep_shape, hprev, hdropk]
      rw [List.set_append]
      rw [if_neg (by omega)]
      rw [htake, Nat.sub_self, List.set_cons_zero]
      rw [List.getD_eq_getElem _ _ hkn]
      exact hgoal
    · rw [if_neg hne]
      push_neg at hne
      rw [hgetprev, List.getD_eq_getElem _ _ hkn] at hne
      rw [hprev, hdropk, hne]
      exact hgoal

lemma tensorExpandPad_of_eq (x : MiniBuffer) (ns : List ℕ) (h : x.shape.length = ns.length) :
    tensorExpandPad x ns = x := by
  unfold tensorExpandPad
  rw [if_neg (by rw [h]; exact Nat.lt_irrefl _)]

lemma tensorExpand_shape (x : MiniBuffer) (ns : List ℕ) (h : x.shape.length = ns.length) :
    (tensorExpand x ns).shape = ns := by
  unfold tensorExpand
  rw [tensorExpandPad_of_eq x ns h]
  have hfold := foldl_expand_shape ns x.shape.length x h h.le
  rw [hfold, h, List.take_length, List.drop_eq_nil_of_le h.le]
  simp

lemma broadcastedCore_shapes (x y : MiniBuffer) (h : x.shape.length = y.shape.length) :
    (broadcastedCore x y).1.shape = List.zipWith max x.shape y.shape ∧
    (broadcastedCore x y).2.shape = List.zipWith max x.shape y.shape := by
  unfold broadcastedCore
  by_cases heq : x.shape = y.shape
  · rw [if_pos heq]
    constructor
    · rw [heq] at h ⊢
      rw [zipWith_max_self]
    · rw [← heq, zipWith_max_self]
  · rw [if_neg heq]
    have hlen : x.shape.length = (List.zipWith max x.shape y.shape).length := by
      rw [List.length_zipWith]
      omega
    have hlen' : y.shape.length = (List.zipWith max x.shape y.shape).length := by
      rw [List.length_zipWith]
      omega
    constructor
    · by_cases hx : x.shape ≠ List.zipWith max x.shape y.shape
      · simp only [if_pos hx]
        exact tensorExpand_shape _ _ hlen
      · simp only [if_neg hx]
        push_neg at hx
        exact hx
    · by_cases hy : y.shape ≠ List.zipWith max x.shape y.shape
      · simp only [if_pos hy]
        exact tensorExpand_shape _ _ hlen'
      · simp only [if_neg hy]
        push_neg at hy
        exact hy

lemma padRanks_shapes (x y : MiniBuffer) :
    (padRanks x y).1.shape = padShapeTo x.shape y.shape.length ∧
    (padRanks x y).2.shape = padShapeTo y.shape x.shape.length := by
  unfold padRanks
  constructor
  · by_cases h : x.shape.length < y.shape.length
    · rw [if_pos h]
      rfl
    · rw [if_neg h, padShapeTo_of_le _ _ (by omega)]
  · by_cases h : y.shape.length < x.shape.length
    · rw [if_pos h]
      rfl
    · rw [if_neg h, padShapeTo_of_le _ _ (by omega)]

/-- C8: `_broadcasted` leaves equal-shaped operands untouched, and otherwise
left-pads the lower-rank shape with size-1 axes and returns two tensors
whose shapes are both `shape_ret`, with `shape_ret[i] = max(S1[i], S2[i])`
over the padded shapes (expanding exactly the axes that differ, which the
source asserts to have size 1 — hypothesis `_hcompat` mirrors that contract,
and `_hx0`/`_hy0` mirror the no-zero-dimension assertion of
`Tensor.reshape`). -/
theorem broadcasted_spec (x y : MiniBuffer)
    (_hx0 : 0 ∉ x.shape) (_hy0 : 0 ∉ y.shape)
    (_hcompat : ∀ i,
      (padShapeTo x.shape y.shape.length).getD i 1 =
          (padShapeTo y.shape x.shape.length).getD i 1 ∨
        (padShapeTo x.shape y.shape.length).getD i 1 = 1 ∨
        (padShapeTo y.shape x.shape.length).getD i 1 = 1) :
    (x.shape = y.shape → broadcasted x y = (x, y)) ∧
    (broadcasted x y).1.shape =
      List.zipWith max (padShapeTo x.shape y.shape.length)
        (padShapeTo y.shape x.shape.length) ∧
    (broadcasted x y).2.shape =
      List.zipWith max (padShapeTo x.shape y.shape.length)
        (padShapeTo y.shape x.shape.length) := by
  by_cases h : x.shape = y.shape
  · have hb : broadcasted x y = (x, y) := by
      unfold broadcasted
      rw [if_pos h]
    have hlen : y.shape.length ≤ x.shape.length := by rw [h]
    have hlen' : x.shape.length ≤ y.shape.length := by rw [h]
    rw [hb, padShapeTo_of_le _ _ hlen, padShapeTo_of_le _ _ hlen']
    refine ⟨fun _ => rfl, ?_, ?_⟩
    · show x.shape = _
      rw [h, zipWith_max_self]
    · show y.shape = _
      rw [h, zipWith_max_self]
  · have hb : broadcasted x y = broadcastedCore (padRanks x y).1 (padRanks x y).2 := by
      unfold broadcasted
      rw [if_neg h]
    obtain ⟨hp1, hp2⟩ := padRanks_shapes x y
    have hlen : (padRanks x y).1.shape.length = (padRanks x y).2.shape.length := by
      rw [hp1, hp2, padShapeTo_length, padShapeTo_length]
      omega
    obtain ⟨hc1, hc2⟩ := broadcastedCore_shapes (padRanks x y).1 (padRanks x y).2 hlen
    rw [hb]
    exact ⟨fun heq => absurd heq h, by rw [hc1, hp1, hp2], by rw [hc2, hp1, hp2]⟩

/-- C8 witness: broadcasting the rank-1 shape `(3,)` against the rank-2 shape
`(2,3)` produces two tensors of shape `(2,3)`. -/
theorem broadcasted_spec_witness :
    (broadcasted (ofDataShape [1, 2, 3] [3]) (ofDataShape [1, 2, 3, 4, 5, 6] [2, 3])).1.shape
        = [2, 3] ∧
    (broadcasted (ofDataShape [1, 2, 3] [3]) (ofDataShape [1, 2, 3, 4, 5, 6] [2, 3])).2.shape
        = [2, 3] := by
  have hcompat : ∀ i,
      (padShapeTo (ofDataShape [1, 2, 3] [3]).shape
          (ofDataShape [1, 2, 3, 4, 5, 6] [2, 3]).shape.length).getD i 1 =
        (padShapeTo (ofDataShape [1, 2, 3, 4, 5, 6] [2, 3]).shape
          (ofDataShape [1, 2, 3] [3]).shape.length).getD i 1 ∨
      (padShapeTo (ofDataShape [1, 2, 3] [3]).shape
          (ofDataShape [1, 2, 3, 4, 5, 6] [2, 3]).shape.length).getD i 1 = 1 ∨
      (padShapeTo (ofDataShape [1, 2, 3, 4, 5, 6] [2, 3]).shape
          (ofDataShape [1, 2, 3] [3]).shape.length).getD i 1 = 1 := by
    intro i
    match i with
    | 0 => right; left; decide
    | 1 => left; decide
    | n + 2 =>
      right; left
      exact List.getD_eq_default _ _ (show _ ≤ n + 2 by show 2 ≤ n + 2; omega)
  have h := broadcasted_spec (ofDataShape [1, 2, 3] [3]) (ofDataShape [1, 2, 3, 4, 5, 6] [2, 3])
    (by decide) (by decide) hcompat
  exact ⟨h.2.1.trans (by decide), h.2.2.trans (by decide)⟩

end MiniBuffer

end Minitorch

namespace Minitorch

open MiniBuffer

/-! ## The autograd engine (`Tensor.toposort` / `Tensor.backward`) -/

/-- `MiniBuffer.mul` (used by backward rules of concrete graphs below). -/
def MiniBuffer.mul (x y : MiniBuffer) : MiniBuffer :=
  ofDataShape (traverseBin .MUL x y 0 0 0) x.shape

/-- The test `MiniBuffer.is_scalar` performs: the *rank* is 1 (not: the
element count is 1).  `Tensor.is_scalar` delegates to it through the Storage
wrapper. -/
def isScalarShape (s : List ℕ) : Bool := s.length = 1

lemma is_scalar_eq_isScalarShape (b : MiniBuffer) : b.is_scalar = isScalarShape b.shape := rfl

/-- One graph node's static attributes: the shape of its buffer
(`Tensor.storage`) and its `requires_grad` flag. -/
structure NodeInfo where
  shape : List ℕ
  requiresGrad : Bool

/-- The operation record a produced tensor keeps in `_ctx` (`Function` in
`tensor.py`): the parent node ids and the backward rule mapping the output
gradient buffer to one optional gradient buffer per parent (the source wraps
a lone gradient into a singleton list; the rule here returns the list
directly). -/
structure Ctx where
  parents : List ℕ
  back : MiniBuffer → List (Option MiniBuffer)

/-- The mutable autograd state: each node's `_ctx` (set to `none` both for a
tensor that never had one and after `del node._ctx` — `toposort` reads it
with `getattr(node, "_ctx", None)`, which treats both alike) and each node's
`grad` slot. -/
structure AGState where
  ctxs : ℕ → Option Ctx
  grads : ℕ → Option MiniBuffer

/-- `Tensor.toposort`'s inner `_toposort`: mark the node visited on entry; if
it has a producing operation, recurse into each not-yet-visited parent and
then append the node; pure leaves are never appended.  `fuel` bounds the
recursion depth (the source relies on Python recursion; any `fuel` at least
the number of graph nodes suffices). -/
def toposortAux (ctxs : ℕ → Option Ctx) :
    ℕ → ℕ → List ℕ → List ℕ → List ℕ × List ℕ
  | 0, _, visited, nodes => (visited, nodes)
  | fuel + 1, node, visited, nodes =>
    let visited' := node :: visited
    match ctxs node with
    | none => (visited', nodes)
    | some c =>
      let vn := c.parents.foldl
        (fun vn p => if p ∈ vn.1 then vn else toposortAux ctxs fuel p vn.1 vn.2)
        (visited', nodes)
      (vn.1, vn.2 ++ [node])

/-- `Tensor.toposort`. -/
def toposort (st : AGState) (root fuel : ℕ) : List ℕ :=
  (toposortAux st.ctxs fuel root [] []).2

/-- Modelled from the spec: `ops.py` is not under `src/`; per §4.1/§4.2
`Add`'s forward step is elementwise addition of the underlying buffers, and
`Tensor.__add__` applies `_broadcasted` first.  This is the `parent.grad +
grad` of the accumulation step. -/
def tensorAdd (x y : MiniBuffer) : MiniBuffer :=
  ((broadcasted x y).1).add (broadcasted x y).2

/-- `parent.grad = grad if parent.grad is None else (parent.grad + grad)`. -/
def accumGrad (old : Option MiniBuffer) (gr : MiniBuffer) : MiniBuffer :=
  match old with
  | none => gr
  | some o => tensorAdd o gr

/-- The per-(parent, gradient) accumulation step of `Tensor.backward`: when
the gradient is defined and the parent requires a gradient, assert the
gradient's shape equals the parent's shape, then set or add-accumulate it
into the parent's grad slot. -/
def accumStep (info : ℕ → NodeInfo) (s : AGState) (pg : ℕ × Option MiniBuffer) :
    Except String AGState :=
  match pg.2 with
  | none => .ok s
  | some gr =>
    if (info pg.1).requiresGrad then
      if gr.shape ≠ (info pg.1).shape then
        .error "Grad shape must match Tensor shape"
      else
        .ok { s with grads := Function.update s.grads pg.1 (some (accumGrad (s.grads pg.1) gr)) }
    else .ok s

/-- The `for parent, grad in zip(...)` loop of `Tensor.backward`, with the
Python assertion failure propagated. -/
def accumList (info : ℕ → NodeInfo) : AGState → List (ℕ × Option MiniBuffer) →
    Except String AGState
  | s, [] => .ok s
  | s, pg :: rest =>
    match accumStep info s pg with
    | .error e => .error e
    | .ok s1 => accumList info s1 rest

/-- One iteration of the reverse loop of `Tensor.backward` at `node`: assert
its gradient is populated, read its `_ctx` (a missing one would be Python's
`AttributeError`), run the backward rule, accumulate every pair, then delete
the node's `_ctx`. -/
def processNode (info : ℕ → NodeInfo) (st : AGState) (node : ℕ) :
    Except String AGState :=
  match st.grads node with
  | none => .error "assert node.grad is not None"
  | some g =>
    match st.ctxs node with
    | none => .error "AttributeError: _ctx"
    | some c =>
      match accumList info st (c.parents.zip (c.back g)) with
      | .error e => .error e
      | .ok st' => .ok { st' with ctxs := Function.update st'.ctxs node none }

/-- The `for node in reversed(autograd_graph)` loop of `Tensor.backward`. -/
def procList (info : ℕ → NodeInfo) : AGState → List ℕ → Except String AGState
  | s, [] => .ok s
  | s, node :: rest =>
    match processNode info s node with
    | .error e => .error e
    | .ok s1 => procList info s1 rest

/-- Modelled from the spec: `storage.py` is not under `src/`; per §2 Storage
is a thin dtype-tagging wrapper around a buffer and per §4.4 `backward` seeds
the root's gradient with "the literal value 1.0", i.e. the Tensor built from
the scalar `1.0`, whose buffer is the one-element rank-1 buffer of shape
`(1,)`. -/
def scalarOneBuf : MiniBuffer := ofDataShape [1] [1]

/-- `Tensor.backward`: assert `is_scalar` on the root (a *rank* test, see
`isScalarShape`), seed the root's gradient to `Tensor(1.0)`, topologically
sort, and process the order in reverse. -/
def backwardRun (info : ℕ → NodeInfo) (st : AGState) (root fuel : ℕ) :
    Except String AGState :=
  if isScalarShape (info root).shape then
    procList info { st with grads := Function.update st.grads root (some scalarOneBuf) }
      (toposort { st with grads := Function.update st.grads root (some scalarOneBuf) }
        root fuel).reverse
  else
    .error "Backward can only be called for scalar tensors"

/-- The grad slot of node `i` after a run (`none` when the run failed). -/
def runGrad (r : Except String AGState) (i : ℕ) : Option MiniBuffer :=
  match r with
  | .ok st => st.grads i
  | .error _ => none

/-- Whether a run succeeded. -/
def runOk (r : Except String AGState) : Bool :=
  match r with
  | .ok _ => true
  | .error _ => false

/-- Whether node `i`'s producing-operation reference is gone after a run. -/
def runCtxGone (r : Except String AGState) (i : ℕ) : Bool :=
  match r with
  | .ok st => (st.ctxs i).isNone
  | .error _ => false

/-- Sequence a second engine call after a successful run. -/
def runThen (r : Except String AGState) (f : AGState → Except String AGState) :
    Except String AGState :=
  match r with
  | .ok st => f st
  | .error e => .error e

/-- The state a successful run produced (defaulting to `dflt` on failure). -/
def runState (r : Except String AGState) (dflt : AGState) : AGState :=
  match r with
  | .ok st => st
  | .error _ => dflt

/-- The error message of a failed run. -/
def runErr (r : Except String AGState) : Option String :=
  match r with
  | .ok _ => none
  | .error e => some e

end Minitorch

namespace Minitorch

open MiniBuffer

/-! ## Concrete autograd graphs -/

/-- The empty autograd state: no ctx, no gradient anywhere. -/
def emptyState : AGState where
  ctxs := fun _ => none
  grads := fun _ => none

/-- All nodes are scalar tensors of shape `(1,)` requiring gradients. -/
def diamondInfo : ℕ → NodeInfo := fun _ => ⟨[1], true⟩

/-- Diamond graph: leaf `a` (node 0) feeds two multiply branches
`n1 = a * 3` (node 1) and `n2 = a * 5` (node 2), which merge by addition
into the scalar root `n3 = n1 + n2` (node 3).  The backward rules are the
standard ones the operations of `ops.py` supply: multiplication by a
constant scales the upstream gradient, addition passes it through to both
parents. -/
def diamondState : AGState where
  ctxs := fun n =>
    if n = 1 then some ⟨[0], fun g => [some (g.mul (ofDataShape [3] [1]))]⟩
    else if n = 2 then some ⟨[0], fun g => [some (g.mul (ofDataShape [5] [1]))]⟩
    else if n = 3 then some ⟨[1, 2], fun g => [some g, some g]⟩
    else none
  grads := fun _ => none

/-- One full backward pass from the diamond's root. -/
def diamondRun : Except String AGState := backwardRun diamondInfo diamondState 3 10

/-- A second backward pass from the same root, on the state the first pass
left behind. -/
def diamondSecond : Except String AGState :=
  runThen diamondRun (fun st => backwardRun diamondInfo st 3 10)

/-- A single leaf root of shape `(3,)`: rank 1, but three elements. -/
def vec3Info : ℕ → NodeInfo := fun _ => ⟨[3], true⟩

/-- Backward from the `(3,)`-shaped root. -/
def vec3Run : Except String AGState := backwardRun vec3Info emptyState 0 10

/-! ## Claim C2: gradient accumulation over shared sub-graphs -/

/-- C2: on the diamond graph, the reverse traversal accumulates every defined
parent gradient of a gradient-requiring parent by addition, so the shared
leaf ends with the *sum* of the two branches' contributions, `3 + 5` (not
`3` or `5` alone); every interior node's gradient is the seeded `1.0`. -/
theorem backward_accumulates_shared_subgraph :
    runOk diamondRun = true ∧
    runGrad diamondRun 0 = some (ofDataShape [3 + 5] [1]) ∧
    runGrad diamondRun 1 = some scalarOneBuf ∧
    runGrad diamondRun 2 = some scalarOneBuf ∧
    runGrad diamondRun 3 = some scalarOneBuf := by
  refine ⟨?_, ?_, ?_, ?_, ?_⟩ <;> decide

end Minitorch

namespace Minitorch

open MiniBuffer

/-! ## Claim C1: the `backward()` entry guard -/

/-- C1 counterexample: `is_scalar` tests the rank, not the element count, so
`backward()` *succeeds* on a rank-1 root whose buffer holds three elements —
refuting "backward() succeeds only when the buffer has exactly one element;
more than one element fails with a contract violation". -/
theorem backward_succeeds_on_three_element_buffer :
    MiniBuffer.is_scalar (ofDataShape [1, 2, 3] [3]) = true ∧
    (ofDataShape [1, 2, 3] [3]).data.length = 3 ∧
    (vec3Info 0).shape = (ofDataShape [1, 2, 3] [3]).shape ∧
    runOk vec3Run = true := by
  refine ⟨?_, ?_, ?_, ?_⟩ <;> decide

/-- C1 amended: the guard of `backward()` is the *rank* test of
`MiniBuffer.is_scalar`: a root of rank ≠ 1 fails with the contract-violation
message before any gradient is computed, but a rank-1 root passes the guard
even when its buffer has more than one element. -/
theorem backward_guard_is_rank_test :
    (∀ (info : ℕ → NodeInfo) (st : AGState) (root fuel : ℕ),
        (info root).shape.length ≠ 1 →
        backwardRun info st root fuel =
          .error "Backward can only be called for scalar tensors") ∧
    runOk vec3Run = true ∧ (vec3Info 0).shape.prod ≠ 1 := by
  refine ⟨?_, by decide, by decide⟩
  intro info st root fuel h
  unfold backwardRun
  rw [if_neg (by simp [isScalarShape, h])]

/-- C1 witness: the rank-2 root `(2, 2)` is rejected by the guard. -/
theorem backward_guard_witness :
    backwardRun (fun _ => ⟨[2, 2], true⟩) emptyState 0 10 =
      .error "Backward can only be called for scalar tensors" :=
  backward_guard_is_rank_test.1 _ _ 0 10 (by decide)

/-! ## Claim C3: `_ctx` release and a second `backward()` call -/

/-- C3 counterexample: a second `backward()` over the already-consumed
diamond graph does *not* fail — refuting "a second backward() call must
fail".  `toposort` reads `_ctx` with `getattr(node, "_ctx", None)`, finds the
root's reference gone, returns an empty order, and the call returns
normally. -/
theorem second_backward_does_not_fail :
    runOk diamondSecond = true := by decide

/-- C3 amended: each processed node's producing-operation reference is
released right after its backward contribution is applied (all three
interior references are gone after the first pass), and a second
`backward()` over the consumed graph neither fails nor re-accumulates: it
returns successfully, re-seeds only the root's gradient, and leaves the
leaf's accumulated gradient `3 + 5` untouched. -/
theorem ctx_released_second_backward_noop :
    runCtxGone diamondRun 1 = true ∧
    runCtxGone diamondRun 2 = true ∧
    runCtxGone diamondRun 3 = true ∧
    runOk diamondSecond = true ∧
    runGrad diamondSecond 0 = some (ofDataShape [3 + 5] [1]) ∧
    runGrad diamondSecond 3 = some scalarOneBuf := by
  refine ⟨?_, ?_, ?_, ?_, ?_, ?_⟩ <;> decide

end Minitorch

namespace Minitorch

open MiniBuffer

/-! ## Claim C4: the grad-shape invariant -/

/-- Every populated grad slot has exactly the shape of its owner. -/
def GradShapeInv (info : ℕ → NodeInfo) (st : AGState) : Prop :=
  ∀ n g, st.grads n = some g → g.shape = (info n).shape

lemma tensorAdd_shape_of_eq (x y : MiniBuffer) (h : x.shape = y.shape) :
    (tensorAdd x y).shape = x.shape := by
  unfold tensorAdd
  rw [show broadcasted x y = (x, y) from by unfold broadcasted; rw [if_pos h]]
  rfl

lemma accumStep_inv (info : ℕ → NodeInfo) (s s' : AGState) (pg : ℕ × Option MiniBuffer)
    (hinv : GradShapeInv info s) (h : accumStep info s pg = .ok s') :
    GradShapeInv info s' := by
  obtain ⟨p, og⟩ := pg
  cases og with
  | none =>
    simp only [accumStep] at h
    cases h
    exact hinv
  | some gr =>
    simp only [accumStep] at h
    by_cases hrg : (info p).requiresGrad
    · rw [if_pos hrg] at h
      by_cases hsh : gr.shape ≠ (info p).shape
      · rw [if_pos hsh] at h
        cases h
      · rw [if_neg hsh] at h
        push_neg at hsh
        cases h
        intro n g hg
        have hg' : Function.update s.grads p (some (accumGrad (s.grads p) gr)) n = some g := hg
        by_cases hn : n = p
        · subst hn
          rw [Function.update_same] at hg'
          cases hg'
          cases hold : s.grads n with
          | none => simp only [accumGrad, hold]; exact hsh
          | some old =>
            have holds : old.shape = (info n).shape := hinv n old hold
            simp only [accumGrad, hold]
            rw [tensorAdd_shape_of_eq old gr (by rw [holds, hsh])]
            exact holds
        · rw [Function.update_noteq hn] at hg'
          exact hinv n g hg'
    · rw [if_neg hrg] at h
      cases h
      exact hinv

lemma accumList_inv (info : ℕ → NodeInfo) :
    ∀ (L : List (ℕ × Option MiniBuffer)) (s s' : AGState),
      GradShapeInv info s → accumList info s L = .ok s' → GradShapeInv info s'
  | [], s, s', hinv, h => by
    simp only [accumList] at h
    cases h
    exact hinv
  | pg :: rest, s, s', hinv, h => by
    cases hstep : accumStep info s pg with
    | error e =>
      simp only [accumList, hstep] at h
      cases h
    | ok s1 =>
      simp only [accumList, hstep] at h
      exact accumList_inv info rest s1 s' (accumStep_inv info s s1 pg hinv hstep) h

lemma processNode_inv (info : ℕ → NodeInfo) (st st' : AGState) (node : ℕ)
    (hinv : GradShapeInv info st) (h : processNode info st node = .ok st') :
    GradShapeInv info st' := by
  cases hg : st.grads node with
  | none =>
    simp only [processNode, hg] at h
    cases h
  | some g =>
    cases hc : st.ctxs node with
    | none =>
      simp only [processNode, hg, hc] at h
      cases h
    | some c =>
      cases hacc : accumList info st (c.parents.zip (c.back g)) with
      | error e =>
        simp only [processNode, hg, hc, hacc] at h
        cases h
      | ok st1 =>
        simp only [processNode, hg, hc, hacc] at h
        cases h
        exact fun n gg hgg => accumList_inv info _ st st1 hinv hacc n gg hgg

lemma procList_inv (info : ℕ → NodeInfo) :
    ∀ (L : List ℕ) (s s' : AGState),
      GradShapeInv info s → procList info s L = .ok s' → GradShapeInv info s'
  | [], s, s', hinv, h => by
    simp only [procList] at h
    cases h
    exact hinv
  | node :: rest, s, s', hinv, h => by
    cases hstep : processNode info s node with
    | error e =>
      simp only [procList, hstep] at h
      cases h
    | ok s1 =>
      simp only [procList, hstep] at h
      exact procList_inv info rest s1 s' (processNode_inv info s s1 node hinv hstep) h

/-- The graph for the assertion half of C4: root 1 (scalar, with a producing
operation) whose backward rule hands its parent 0 a gradient of shape `(2,)`
although the parent's shape is `(1,)`. -/
def badGradState : AGState where
  ctxs := fun n =>
    if n = 1 then some ⟨[0], fun _ => [some (ofDataShape [1, 2] [2])]⟩ else none
  grads := fun _ => none

/-- C4 amended: whenever `backward()` runs from a root whose shape is exactly
`(1,)` — so that the seeded `Tensor(1.0)` gradient matches the root's shape —
every grad slot it populates has exactly the shape of its owner (the shape
assertion admits nothing else, and accumulation `parent.grad + grad` of two
equal-shaped buffers never broadcasts); a backward rule returning a gradient
whose shape differs from its parent's makes the pass fail on that assertion.
(For rank-1 roots with more than one element — which the guard admits, see
C1 — the seeded gradient itself already violates the claimed invariant.) -/
theorem grad_shape_invariant (info : ℕ → NodeInfo) (st st' : AGState) (root fuel : ℕ)
    (hroot : (info root).shape = [1]) (hinv : GradShapeInv info st)
    (hrun : backwardRun info st root fuel = .ok st') :
    GradShapeInv info st' ∧
    runErr (backwardRun diamondInfo badGradState 1 10) =
      some "Grad shape must match Tensor shape" := by
  refine ⟨?_, by decide⟩
  unfold backwardRun at hrun
  rw [if_pos (by rw [hroot]; decide)] at hrun
  have hseed : GradShapeInv info
      { st with grads := Function.update st.grads root (some scalarOneBuf) } := by
    intro n g hg
    have hg' : Function.update st.grads root (some scalarOneBuf) n = some g := hg
    by_cases hn : n = root
    · subst hn
      rw [Function.update_same] at hg'
      cases hg'
      rw [hroot]
      rfl
    · rw [Function.update_noteq hn] at hg'
      exact hinv n g hg'
  exact procList_inv info _ _ st' hseed hrun

/-- C4 counterexample: the guard admits a rank-1 root of shape `(3,)` (see
C1), and right after the gradient seed that root's grad slot is populated
with the shape-`(1,)` buffer `Tensor(1.0)` — a populated grad whose shape
differs from its owner's, refuting "whenever its grad slot is populated ...
the grad has exactly the same shape as its owner" as a statement about every
tensor. -/
theorem grad_seed_shape_mismatch :
    runOk vec3Run = true ∧
    runGrad vec3Run 0 = some scalarOneBuf ∧
    scalarOneBuf.shape = [1] ∧
    (vec3Info 0).shape = [3] := by
  refine ⟨?_, ?_, ?_, ?_⟩ <;> decide

/-- C4 witness: the invariant theorem applied to the diamond run. -/
theorem grad_shape_invariant_witness :
    GradShapeInv diamondInfo (runState diamondRun diamondState) :=
  (grad_shape_invariant diamondInfo diamondState (runState diamondRun diamondState) 3 10
    rfl (fun _ _ hg => nomatch hg) rfl).1

end Minitorch
